import Mathlib

/-!
Verification of the stream-relay / in-band-error-detection core of the aihoro
chat application.

The development shallowly embeds:
* the browser-side stream consumer (`handleSendMessage` in the streaming
  version of `ChatInterface`): incremental UTF-8 decoding, accumulation,
  in-band JSON error detection, and the React state updates that locate the
  assistant placeholder message by object identity;
* the two provider routes (`app/api/chat/gemini/route.ts` and
  `app/api/chat/openai/route.ts`): the `ReadableStream` bodies that relay
  provider chunks and convert mid-stream faults into a single in-band JSON
  error chunk, plus `transformMessagesForGemini`;
* the platform primitives the code relies on: a byte-level streaming UTF-8
  decoder (`TextDecoder`), `JSON.parse` and the `JSON.stringify` shape used
  for error chunks, and JavaScript string trimming / truthiness.

JavaScript object identity is modelled by giving every message an `ident`
tag; the object spread `［...msg, ...］` used by the updates creates a fresh
object, which the model reflects by assigning a fresh `ident` to the
replacement.
-/

namespace Aihoro

/-! ### JavaScript string and truthiness helpers -/

/-- The whitespace set of JavaScript `String.prototype.trim` (ASCII
whitespace, NBSP, the Unicode space separators, line/paragraph separators
and the BOM). -/
def jsIsWs (c : Char) : Bool :=
  c = ' ' || c = '\t' || c = '\n' || c = '\r' ||
  c.toNat = 0x0B || c.toNat = 0x0C || c.toNat = 0xA0 || c.toNat = 0x1680 ||
  (0x2000 ≤ c.toNat && c.toNat ≤ 0x200A) || c.toNat = 0x2028 ||
  c.toNat = 0x2029 || c.toNat = 0x202F || c.toNat = 0x205F ||
  c.toNat = 0x3000 || c.toNat = 0xFEFF

/-- Whether a character list, with leading JS whitespace removed, starts
with a left brace. -/
def startsWithLBraceL (l : List Char) : Bool :=
  match l.dropWhile jsIsWs with
  | [] => false
  | c :: _ => c = '{'

/-- Model of the guard expression `s.trim().startsWith("\x7b")` from the
consumer.  Trimming the right end of the string can never change its first
non-whitespace character, so the check is equivalent to dropping leading
JS whitespace and looking at the head. -/
def startsWithLBrace (s : String) : Bool :=
  startsWithLBraceL s.data

/-- Model of the JavaScript idiom `s || d` for strings: the empty string is
falsy. -/
def jsOrElse (s d : String) : String :=
  if s = "" then d else s

/-! ### JSON values

Model of the values produced by `JSON.parse`.  Numbers keep their source
lexeme; the claims never depend on numeric normalisation, only on
truthiness (zero is falsy). -/

inductive JsonVal where
  | null
  | bool (b : Bool)
  | num (raw : String)
  | str (s : String)
  | arr (xs : List JsonVal)
  | obj (fields : List (String × JsonVal))

/-- A JSON number is zero exactly when every digit of its mantissa (the part
before any exponent) is `0`. -/
def numIsZero (raw : String) : Bool :=
  ((raw.data.takeWhile (fun c => c ≠ 'e' && c ≠ 'E')).filter Char.isDigit).all (· = '0')

/-- JavaScript truthiness of a parsed JSON value. -/
def jsTruthy : JsonVal → Bool
  | .null => false
  | .bool b => b
  | .num raw => !numIsZero raw
  | .str s => s ≠ ""
  | .arr _ => true
  | .obj _ => true

/-- Property access `v.error`-style on a parsed JSON value: defined (as
`some`) only on objects that carry the key; with duplicate keys
`JSON.parse` keeps the last occurrence. -/
def getField : JsonVal → String → Option JsonVal
  | .obj fs, k => (fs.reverse.find? (fun p => p.1 = k)).map (·.2)
  | _, _ => none

mutual

/-- JavaScript string conversion of a parsed JSON value, as performed by a
template literal. -/
def jsDisplay : JsonVal → String
  | .null => "null"
  | .bool true => "true"
  | .bool false => "false"
  | .num raw => raw
  | .str s => s
  | .arr xs => jsDisplayList xs
  | .obj _ => "[object Object]"

/-- Array-to-string conversion joins the elements with commas. -/
def jsDisplayList : List JsonVal → String
  | [] => ""
  | [x] => jsDisplayElem x
  | x :: xs => jsDisplayElem x ++ "," ++ jsDisplayList xs

/-- Inside `Array.prototype.toString`, `null` elements display as the empty
string. -/
def jsDisplayElem : JsonVal → String
  | .null => ""
  | v => jsDisplay v

end

/-! ### JSON parser: model of `JSON.parse` -/

/-- JSON insignificant whitespace (strictly smaller than the JS `trim`
set). -/
def isJsonWs (c : Char) : Bool :=
  c = ' ' || c = '\t' || c = '\n' || c = '\r'

def parseHexDigit (c : Char) : Option Nat :=
  if '0' ≤ c ∧ c ≤ '9' then some (c.toNat - '0'.toNat)
  else if 'a' ≤ c ∧ c ≤ 'f' then some (c.toNat - 'a'.toNat + 10)
  else if 'A' ≤ c ∧ c ≤ 'F' then some (c.toNat - 'A'.toNat + 10)
  else none

def parseHex4 (h1 h2 h3 h4 : Char) : Option Nat := do
  let a ← parseHexDigit h1
  let b ← parseHexDigit h2
  let c ← parseHexDigit h3
  let d ← parseHexDigit h4
  pure (a * 4096 + b * 256 + c * 16 + d)

/-- Prepend a decoded character to the result of parsing the rest of a
string body. -/
def consStr (c : Char) : Option (List Char × List Char) → Option (List Char × List Char) :=
  Option.map (fun p => (c :: p.1, p.2))

/-- Parse the body of a JSON string literal (the opening quote already
consumed), returning the decoded characters and the input after the closing
quote.  Raw control characters are rejected; escape sequences are decoded.
Surrogate code units (unrepresentable in Lean strings) decode to U+FFFD;
pair combining is not modelled, as `JSON.stringify` only emits `\uXXXX`
escapes for control characters and no claim involves astral characters. -/
def parseStringBody : List Char → Option (List Char × List Char)
  | [] => none
  | c :: r =>
    if c = '"' then some ([], r)
    else if c = '\\' then
      match r with
      | [] => none
      | e :: r2 =>
        if e = '"' then consStr '"' (parseStringBody r2)
        else if e = '\\' then consStr '\\' (parseStringBody r2)
        else if e = '/' then consStr '/' (parseStringBody r2)
        else if e = 'b' then consStr '\x08' (parseStringBody r2)
        else if e = 'f' then consStr '\x0C' (parseStringBody r2)
        else if e = 'n' then consStr '\n' (parseStringBody r2)
        else if e = 'r' then consStr '\r' (parseStringBody r2)
        else if e = 't' then consStr '\t' (parseStringBody r2)
        else if e = 'u' then
          match r2 with
          | h1 :: h2 :: h3 :: h4 :: r3 =>
            match parseHex4 h1 h2 h3 h4 with
            | none => none
            | some n =>
              if n < 0xD800 ∨ 0xDFFF < n then consStr (Char.ofNat n) (parseStringBody r3)
              else consStr (Char.ofNat 0xFFFD) (parseStringBody r3)
          | _ => none
        else none
    else if c.toNat < 0x20 then none
    else consStr c (parseStringBody r)

def digitSpan (cs : List Char) : List Char × List Char :=
  (cs.takeWhile Char.isDigit, cs.dropWhile Char.isDigit)

/-- Parse the exponent part of a JSON number (if present), returning the
full lexeme. -/
def parseExpPart (lex : List Char) (cs : List Char) : Option (List Char × List Char) :=
  match cs with
  | e :: r =>
    if e = 'e' ∨ e = 'E' then
      let (sg, r1) := match r with
        | '+' :: r2 => (['+'], r2)
        | '-' :: r2 => (['-'], r2)
        | _ => ([], r)
      match digitSpan r1 with
      | ([], _) => none
      | (ds, r2) => some (lex ++ e :: (sg ++ ds), r2)
    else some (lex, cs)
  | [] => some (lex, [])

/-- Parse the fraction part of a JSON number (if present), then the
exponent. -/
def parseFracPart (lex : List Char) (cs : List Char) : Option (List Char × List Char) :=
  match cs with
  | '.' :: r =>
    match digitSpan r with
    | ([], _) => none
    | (ds, r2) => parseExpPart (lex ++ '.' :: ds) r2
  | _ => parseExpPart lex cs

/-- Parse a JSON number, returning its lexeme and the remaining input. -/
def parseNumber (cs : List Char) : Option (List Char × List Char) :=
  let (neg, cs1) : List Char × List Char := match cs with
    | '-' :: r => (['-'], r)
    | _ => ([], cs)
  match cs1 with
  | '0' :: r => parseFracPart (neg ++ ['0']) r
  | c :: _ =>
    if c.isDigit then
      match digitSpan cs1 with
      | (ds, r) => parseFracPart (neg ++ ds) r
    else none
  | [] => none

/-- Parsing modes of the recursive-descent JSON parser: a whole value, the
inside of an object after `\x7b`, the members of an object, the inside of an
array after `[`, and the elements of an array. -/
inductive PMode where
  | val
  | objRest
  | members (acc : List (String × JsonVal))
  | arrRest
  | elems (acc : List JsonVal)

/-- Fuel-indexed recursive-descent JSON parser. -/
def parseJ : Nat → PMode → List Char → Option (JsonVal × List Char)
  | 0, _, _ => none
  | Nat.succ f, mode, cs =>
    match mode with
    | .val =>
      match cs.dropWhile isJsonWs with
      | [] => none
      | c :: r =>
        if c = '"' then (parseStringBody r).map (fun p => (.str ⟨p.1⟩, p.2))
        else if c = '{' then parseJ f .objRest r
        else if c = '[' then parseJ f .arrRest r
        else if c = 'n' then
          match r with
          | 'u' :: 'l' :: 'l' :: r2 => some (.null, r2)
          | _ => none
        else if c = 't' then
          match r with
          | 'r' :: 'u' :: 'e' :: r2 => some (.bool true, r2)
          | _ => none
        else if c = 'f' then
          match r with
          | 'a' :: 'l' :: 's' :: 'e' :: r2 => some (.bool false, r2)
          | _ => none
        else (parseNumber (c :: r)).map (fun p => (.num ⟨p.1⟩, p.2))
    | .objRest =>
      match cs.dropWhile isJsonWs with
      | '}' :: r => some (.obj [], r)
      | _ => parseJ f (.members []) cs
    | .members acc =>
      match cs.dropWhile isJsonWs with
      | '"' :: r =>
        match parseStringBody r with
        | none => none
        | some (k, r1) =>
          match r1.dropWhile isJsonWs with
          | ':' :: r2 =>
            match parseJ f .val r2 with
            | none => none
            | some (v, r3) =>
              match r3.dropWhile isJsonWs with
              | ',' :: r4 => parseJ f (.members (acc ++ [(⟨k⟩, v)])) r4
              | '}' :: r4 => some (.obj (acc ++ [(⟨k⟩, v)]), r4)
              | _ => none
          | _ => none
      | _ => none
    | .arrRest =>
      match cs.dropWhile isJsonWs with
      | ']' :: r => some (.arr [], r)
      | _ => parseJ f (.elems []) cs
    | .elems acc =>
      match parseJ f .val cs with
      | none => none
      | some (v, r) =>
        match r.dropWhile isJsonWs with
        | ',' :: r2 => parseJ f (.elems (acc ++ [v])) r2
        | ']' :: r2 => some (.arr (acc ++ [v]), r2)
        | _ => none

/-- Model of `JSON.parse`: parse one value, then require only whitespace to
remain.  The fuel is generous; every recursive step of `parseJ` consumes at
least one character of input. -/
def jsonParse (s : String) : Option JsonVal :=
  match parseJ (s.data.length * 2 + 8) .val s.data with
  | some (v, rest) => if (rest.dropWhile isJsonWs).isEmpty then some v else none
  | none => none

/-! ### The in-band error chunk: model of `JSON.stringify` on an object
with a single string field -/

/-- Lowercase hexadecimal digit, as emitted by `JSON.stringify`. -/
def hexDigitChar (n : Nat) : Char :=
  if n < 10 then Char.ofNat ('0'.toNat + n) else Char.ofNat ('a'.toNat + n - 10)

/-- The escaping `JSON.stringify` applies to one character of a string:
quote and backslash get a backslash escape, the common control characters
get their short escapes, the remaining control characters get `\u00XX`, and
everything else is emitted verbatim. -/
def escChar (c : Char) : List Char :=
  if c = '"' then ['\\', '"']
  else if c = '\\' then ['\\', '\\']
  else if c = '\x08' then ['\\', 'b']
  else if c = '\t' then ['\\', 't']
  else if c = '\n' then ['\\', 'n']
  else if c = '\x0C' then ['\\', 'f']
  else if c = '\r' then ['\\', 'r']
  else if c.toNat < 0x20 then
    ['\\', 'u', '0', '0', hexDigitChar (c.toNat / 16), hexDigitChar (c.toNat % 16)]
  else [c]

/-- Character-level form of `JSON.stringify (\x7b error: msg \x7d)`. -/
def mkErrorChunkChars (msg : String) : List Char :=
  '{' :: '"' :: 'e' :: 'r' :: 'r' :: 'o' :: 'r' :: '"' :: ':' :: '"' ::
    (msg.data.flatMap escChar ++ ['"', '}'])

/-- The single in-band error chunk both routes enqueue:
`JSON.stringify (\x7b error: msg \x7d)`. -/
def mkErrorChunk (msg : String) : String :=
  ⟨mkErrorChunkChars msg⟩

/-! ### Streaming UTF-8 decoder: model of `TextDecoder` (utf-8, non-fatal)

The decoder state is the byte list of the incomplete sequence currently
buffered (lead byte first); `decodePush` models `decode(value,
\x7b stream: true \x7d)` and `decodeFlush` the final `decode()` call. -/

/-- Expected total length of a UTF-8 sequence begun by this lead byte. -/
def expLen (lead : Nat) : Nat :=
  if 0xC2 ≤ lead ∧ lead ≤ 0xDF then 2
  else if 0xE0 ≤ lead ∧ lead ≤ 0xEF then 3
  else if 0xF0 ≤ lead ∧ lead ≤ 0xF4 then 4
  else 1

/-- Lower bound for the first continuation byte (WHATWG: excludes overlong
encodings and values above U+10FFFF). -/
def contLo (lead : Nat) : Nat :=
  if lead = 0xE0 then 0xA0 else if lead = 0xF0 then 0x90 else 0x80

/-- Upper bound for the first continuation byte (WHATWG: excludes
surrogates and values above U+10FFFF). -/
def contHi (lead : Nat) : Nat :=
  if lead = 0xED then 0x9F else if lead = 0xF4 then 0x8F else 0xBF

/-- Code point encoded by a complete, already validated UTF-8 sequence. -/
def seqVal : List Nat → Nat
  | [l] => l
  | [l, b] => (l - 0xC0) * 64 + (b - 0x80)
  | [l, b, c] => (l - 0xE0) * 4096 + (b - 0x80) * 64 + (c - 0x80)
  | [l, b, c, d] => (l - 0xF0) * 262144 + (b - 0x80) * 4096 + (c - 0x80) * 64 + (d - 0x80)
  | _ => 0

def replChar : Char := Char.ofNat 0xFFFD

/-- Process one byte with an empty decoder buffer. -/
def utf8StepFresh (b : Nat) : List Nat × String :=
  if b < 0x80 then ([], (Char.ofNat b).toString)
  else if (0xC2 ≤ b ∧ b ≤ 0xDF) ∨ (0xE0 ≤ b ∧ b ≤ 0xEF) ∨ (0xF0 ≤ b ∧ b ≤ 0xF4) then ([b], "")
  else ([], replChar.toString)

/-- Process one byte: either extend or complete the buffered sequence, or
(on an invalid continuation byte) emit U+FFFD and reprocess the byte as the
start of a new sequence. -/
def utf8Step (pend : List Nat) (b : Nat) : List Nat × String :=
  match pend with
  | [] => utf8StepFresh b
  | lead :: rest =>
    let lo := if rest.isEmpty then contLo lead else 0x80
    let hi := if rest.isEmpty then contHi lead else 0xBF
    if lo ≤ b ∧ b ≤ hi then
      if (pend ++ [b]).length = expLen lead then ([], (Char.ofNat (seqVal (pend ++ [b]))).toString)
      else (pend ++ [b], "")
    else
      let (p2, out) := utf8StepFresh b
      (p2, replChar.toString ++ out)

/-- Model of `decoder.decode(chunk, \x7b stream: true \x7d)`: feed the bytes
through the step machine, returning the new buffer and the emitted text. -/
def decodePush (pend : List Nat) (chunk : List Nat) : List Nat × String :=
  match chunk with
  | [] => (pend, "")
  | b :: bs =>
    let s1 := utf8Step pend b
    let s2 := decodePush s1.1 bs
    (s2.1, s1.2 ++ s2.2)

/-- Model of the final `decoder.decode()` call: an incomplete buffered
sequence flushes as a single U+FFFD. -/
def decodeFlush (pend : List Nat) : String :=
  if pend.isEmpty then "" else replChar.toString

/-- Non-streaming UTF-8 decoding of a whole byte sequence. -/
def utf8Decode (bytes : List Nat) : String :=
  (decodePush [] bytes).2 ++ decodeFlush (decodePush [] bytes).1

/-- UTF-8 bytes of an ASCII string, for building concrete stream chunks. -/
def asciiBytes (s : String) : List Nat :=
  s.data.map Char.toNat

/-! ### The stream consumer: model of `handleSendMessage` in the streaming
`ChatInterface` -/

/-- A chat message.  `ident` models JavaScript object identity: the
`===` comparison in the state updates is identity on objects, and the
object spread in the updates creates a fresh object, modelled by a fresh
`ident`. -/
structure Msg where
  ident : Nat
  role : String
  content : String
  isError : Bool
deriving DecidableEq, Repr

/-- The React state touched by the consumer: the message list plus a
counter supplying fresh identities. -/
structure StreamState where
  messages : List Msg
  nextId : Nat
deriving DecidableEq, Repr

/-- Model of
`setMessages(prev => prev.map(msg => msg === placeholder ? spread : msg))`:
every message whose identity equals the placeholder's is replaced by a
fresh object carrying the new content and error flag; all other messages
are untouched. -/
def updatePlaceholder (pid : Nat) (content : String) (isErr : Bool) (st : StreamState) :
    StreamState :=
  { messages := st.messages.map
      (fun m => if m.ident = pid then ⟨st.nextId, m.role, content, isErr⟩ else m),
    nextId := if st.messages.any (fun m => m.ident = pid) then st.nextId + 1 else st.nextId }

/-- The in-band error check the consumer runs on the accumulated buffer:
when the guard `firstChunk || acc.trim().startsWith("\x7b")` allows it,
`JSON.parse` the buffer and test `potentialError && potentialError.error`;
parse failures are swallowed.  Returns the error field's value when the
check fires. -/
def detectError (attempted : Bool) (acc : String) : Option JsonVal :=
  if attempted then
    match jsonParse acc with
    | some v =>
      if jsTruthy v then
        match getField v "error" with
        | some e => if jsTruthy e then some e else none
        | none => none
      else none
    | none => none
  else none

/-- The loop state of the consumer's read loop: React state, accumulated
decoded content, decoder buffer, the `firstChunk` flag, plus two
observational records (the guard value and buffer at each chunk, and the
number of chunks read). -/
structure LoopState where
  st : StreamState
  acc : String
  dec : List Nat
  firstChunk : Bool
  attempts : List (Bool × String)
  chunksRead : Nat
deriving DecidableEq, Repr

/-- The consumer's `while (true)` read loop over the delivered chunks.
Returns the loop state and whether an in-band error was detected (the
early `return`). -/
def consumeChunks (model : String) (pid : Nat) :
    List (List Nat) → LoopState → LoopState × Bool
  | [], ls => (ls, false)
  | chunk :: rest, ls =>
    let dec' := decodePush ls.dec chunk
    let acc' := ls.acc ++ dec'.2
    let attempted := ls.firstChunk || startsWithLBrace acc'
    let ls' : LoopState :=
      { ls with dec := dec'.1, acc := acc', chunksRead := ls.chunksRead + 1,
                attempts := ls.attempts ++ [(attempted, acc')] }
    match detectError attempted acc' with
    | some e =>
      let errSt := updatePlaceholder pid ("Error from " ++ model ++ ": " ++ jsDisplay e) true ls'.st
      ({ ls' with st := errSt }, true)
    | none =>
      consumeChunks model pid rest
        { ls' with firstChunk := false, st := updatePlaceholder pid acc' false ls'.st }

/-- The HTTP response handed to the consumer.  `jsonOf` is the result of
`response.json()` when attempted (`none` = the call rejects), `textOf`
likewise for `response.text()`; `chunks` are the byte chunks the reader
delivers, and `fault` is the message of the exception thrown by the read
after those chunks (`none` = the stream ends normally). -/
structure Response where
  ok : Bool
  statusText : String
  jsonOf : Option JsonVal
  textOf : Option String
  chunks : List (List Nat)
  fault : Option String

/-- What a run of `handleSendMessage` leaves behind: the final message
list, the identity counter, and the observational records. -/
structure RunResult where
  messages : List Msg
  nextId : Nat
  chunksRead : Nat
  errored : Bool
  attempts : List (Bool × String)
deriving DecidableEq, Repr

/-- The error content computed in the `!response.ok` branch:
start from the status text; if `response.json()` resolves, use
`errorData.error || statusText` (accessing `.error` on a `null` body throws
and falls through to the text branch); if `response.json()` rejects, use
`response.text()` if it resolves, else keep the status text. -/
def preStreamErrorContent (model statusText : String)
    (jsonOf : Option JsonVal) (textOf : Option String) : String :=
  "Error from " ++ model ++ ": " ++
    match jsonOf with
    | some JsonVal.null =>
      match textOf with
      | some t => t
      | none => statusText
    | some j =>
      match getField j "error" with
      | some e => if jsTruthy e then jsDisplay e else statusText
      | none => statusText
    | none =>
      match textOf with
      | some t => t
      | none => statusText

/-- Model of `handleSendMessage` from the point where the user message and
the assistant placeholder have been appended: `prior` is the message list
before this turn, `nid` the next free identity.  Mirrors the source: the
`!response.ok` early return, the read loop with in-band error detection and
early return, the `catch` branch for a transport fault, and the final
decoder flush. -/
def handleSendMessage (prior : List Msg) (nid : Nat) (userContent model : String)
    (resp : Response) : RunResult :=
  let userMsg : Msg := ⟨nid, "user", userContent, false⟩
  let placeholder : Msg := ⟨nid + 1, "assistant", "", false⟩
  let pid := nid + 1
  let st0 : StreamState := ⟨prior ++ [userMsg, placeholder], nid + 2⟩
  if resp.ok = false then
    let st1 := updatePlaceholder pid
      (preStreamErrorContent model resp.statusText resp.jsonOf resp.textOf) true st0
    ⟨st1.messages, st1.nextId, 0, false, []⟩
  else
    let ls0 : LoopState := ⟨st0, "", [], true, [], 0⟩
    let r := consumeChunks model pid resp.chunks ls0
    if r.2 then ⟨r.1.st.messages, r.1.st.nextId, r.1.chunksRead, true, r.1.attempts⟩
    else
      match resp.fault with
      | some m =>
        let st1 := updatePlaceholder pid
          ("Network or streaming error with " ++ model ++ ": " ++
            jsOrElse m "Unknown error" ++ ".") true r.1.st
        ⟨st1.messages, st1.nextId, r.1.chunksRead, false, r.1.attempts⟩
      | none =>
        let flushed := decodeFlush r.1.dec
        if flushed = "" then
          ⟨r.1.st.messages, r.1.st.nextId, r.1.chunksRead, false, r.1.attempts⟩
        else
          let st1 := updatePlaceholder pid (r.1.acc ++ flushed) false r.1.st
          ⟨st1.messages, st1.nextId, r.1.chunksRead, false, r.1.attempts⟩

/-! ### Stream source adapters: the `ReadableStream` bodies of the two
provider routes -/

/-- One chunk yielded by the Gemini SDK stream: a possible
`promptFeedback.blockReason` and the `chunk.text()` content. -/
structure GChunk where
  blockReason : Option String
  text : String

/-- One chunk yielded by the OpenAI SDK stream:
`chunk.choices[0]?.delta?.content`. -/
structure OChunk where
  content : Option String

/-- The guard `chunk.promptFeedback && chunk.promptFeedback.blockReason`
(an empty reason is falsy). -/
def geminiBlocked (c : GChunk) : Bool :=
  decide (c.blockReason.getD "" ≠ "")

/-- The guard `content && content.trim()` of the Gemini route: keep a chunk
exactly when it has some non-whitespace character. -/
def geminiKeep (t : String) : Bool :=
  t.data.any (fun c => !jsIsWs c)

/-- The Gemini route's stream body: relay each chunk's text (dropping empty
and whitespace-only chunks); on a block reason, enqueue one in-band error
chunk and close; if the iteration throws after the given chunks, the
`catch` enqueues one in-band error chunk before the `finally` closes. -/
def runGeminiStream : List GChunk → Option String → List String
  | [], fault =>
    match fault with
    | some m => [mkErrorChunk ("Error during streaming from Gemini: " ++ m)]
    | none => []
  | c :: rest, fault =>
    if geminiBlocked c then
      [mkErrorChunk ("Request blocked by Gemini: " ++ c.blockReason.getD "")]
    else if geminiKeep c.text then c.text :: runGeminiStream rest fault
    else runGeminiStream rest fault

/-- The OpenAI route's stream body: relay each chunk's delta content when
truthy; if the iteration throws after the given chunks, the `catch`
enqueues one (constant) in-band error chunk before the `finally` closes. -/
def runOpenAIStream : List OChunk → Bool → List String
  | [], fault =>
    if fault then [mkErrorChunk "Error during streaming from OpenAI."] else []
  | c :: rest, fault =>
    match c.content with
    | some s => if s = "" then runOpenAIStream rest fault else s :: runOpenAIStream rest fault
    | none => runOpenAIStream rest fault

/-- The content chunks the OpenAI route enqueues (the truthy delta
contents, in order). -/
def openaiEmitted (ocs : List OChunk) : List String :=
  ocs.filterMap (fun c =>
    match c.content with
    | some s => if s = "" then none else some s
    | none => none)

/-! ### `transformMessagesForGemini` -/

/-- A request message as received by the routes. -/
structure ChatMsg where
  role : String
  content : String
deriving DecidableEq, Repr

/-- One Gemini history entry: `\x7b role, parts: [\x7b text \x7d] \x7d`,
modelled with its single text part. -/
structure GContent where
  role : String
  text : String
deriving DecidableEq, Repr

/-- Model of `transformMessagesForGemini`: reject an empty list; map
`assistant` to `model` and everything else to `user`; require the mapped
role of the last message to be `user`; the last message's content becomes
`lastUserMessage` and the rest become the history.  The post-loop check
re-derives an empty `lastUserMessage` (falsy) from the last message when
its original role is literally `user`, and throws otherwise. -/
def transformMessagesForGemini (messages : List ChatMsg) :
    Except String (List GContent × String) :=
  if messages.length = 0 then Except.error "Message list cannot be empty."
  else
    let geminiRole := fun (m : ChatMsg) => if m.role = "assistant" then "model" else "user"
    let lastMsg := messages.getLastD ⟨"", ""⟩
    if geminiRole lastMsg ≠ "user" then
      Except.error "Last message must be from the user for Gemini API."
    else
      let history := messages.dropLast.map (fun m => GContent.mk (geminiRole m) m.content)
      let lastUserMessage := lastMsg.content
      if lastUserMessage = "" then
        if messages.length > 0 ∧ lastMsg.role = "user" then Except.ok (history, lastMsg.content)
        else
          Except.error
            "Could not determine last user message. Ensure the last message is from the user."
      else Except.ok (history, lastUserMessage)

/-- Modelled from the spec wording for the pre-stream error content, for
comparison with the code's `preStreamErrorContent`: use the JSON body's
`error` field when the body parses as JSON and the field is present, else
the body as plain text when readable, else the HTTP status text. -/
def specPreferredErrorContent (model statusText : String)
    (jsonOf : Option JsonVal) (textOf : Option String) : String :=
  "Error from " ++ model ++ ": " ++
    match jsonOf.bind (fun j => getField j "error") with
    | some e => jsDisplay e
    | none =>
      match textOf with
      | some t => t
      | none => statusText

/-- Concatenation of a list of strings (structurally recursive, so the cons
equation holds definitionally). -/
def concatAll : List String → String
  | [] => ""
  | s :: l => s ++ concatAll l

/-- Invariant of the consumer's state during a fault-free run that never
detects an in-band error: the conversation is the prior messages, the user
message, and one non-error assistant slot — either still the original
placeholder (identity `nid + 1`, counter at `nid + 2`) or its once-replaced
clone (identity `nid + 2`, counter at `nid + 3`). -/
def plainShape (prior : List Msg) (nid : Nat) (uc : String) (st : StreamState) : Prop :=
  ∃ pid c,
    st.messages = prior ++ [⟨nid, "user", uc, false⟩, ⟨pid, "assistant", c, false⟩] ∧
    (pid = nid + 1 ∧ st.nextId = nid + 2 ∨ pid = nid + 2 ∧ st.nextId = nid + 3)

/-! ## Claim theorems: the identity-placeholder defect (C1 - C4)

The consumer locates the placeholder with
`msg === assistantMessagePlaceholder`.  The first state update replaces the
placeholder with a spread-created fresh object, so from the second update
on no element of the message list is identical to the placeholder and every
later update (content, in-band error, transport error, flush) is a no-op,
contradicting the code's own comments that the placeholder "will be updated
incrementally with streamed content". -/

/-- C1: for a pure-content stream delivered as the two chunks "a" and "b",
the final assistant message content is "a" (only the first chunk's update
found the placeholder), while the UTF-8 decoding of the concatenation of
all received chunks is "ab" — refuting the claimed concatenation
property. -/
theorem c1_concat_property_fails :
    (handleSendMessage [] 0 "Hi" "openai" ⟨true, "", none, none, [[97], [98]], none⟩).messages =
      [⟨0, "user", "Hi", false⟩, ⟨2, "assistant", "a", false⟩] ∧
    utf8Decode (List.flatten [[97], [98]]) = "ab" ∧ "a" ≠ "ab" := by decide

/-- C2: the stream state reached by the code after the first chunk "a" of a
two-chunk stream is `[user, assistant "a"]` with the assistant slot carrying
a fresh identity; the second chunk's update (the code calls
`updatePlaceholder` with the original placeholder identity 1 and the
accumulated buffer "ab") leaves that state completely unchanged instead of
replacing the placeholder's content — refuting the claim that every chunk
update replaces the placeholder's content with the accumulated text. -/
theorem c2_chunk_update_not_applied :
    (consumeChunks "openai" 1 [[97]]
        ⟨⟨[⟨0, "user", "Hi", false⟩, ⟨1, "assistant", "", false⟩], 2⟩, "", [], true, [], 0⟩).1.st =
      ⟨[⟨0, "user", "Hi", false⟩, ⟨2, "assistant", "a", false⟩], 3⟩ ∧
    updatePlaceholder 1 "ab" false
        ⟨[⟨0, "user", "Hi", false⟩, ⟨2, "assistant", "a", false⟩], 3⟩ =
      ⟨[⟨0, "user", "Hi", false⟩, ⟨2, "assistant", "a", false⟩], 3⟩ := by decide

/-- C3: the error payload `JSON.stringify(\x7b error: "X" \x7d)` delivered
one character per chunk (13 chunks, followed by one further chunk that must
not be read): detection does fire exactly when the buffer completes
(`errored = true`, and exactly 13 of the 14 chunks are read), but the final
message state is content "\x7b" with `isError = false` — the error-state
update maps over a list that no longer contains the placeholder object —
refuting the claimed final state. -/
theorem c3_fragmented_error_state_lost :
    (handleSendMessage [] 0 "Hi" "openai"
      ⟨true, "", none, none, ((mkErrorChunk "X").data.map fun c => [c.toNat]) ++ [[116]],
        none⟩).errored = true ∧
    (handleSendMessage [] 0 "Hi" "openai"
      ⟨true, "", none, none, ((mkErrorChunk "X").data.map fun c => [c.toNat]) ++ [[116]],
        none⟩).chunksRead = 13 ∧
    (handleSendMessage [] 0 "Hi" "openai"
      ⟨true, "", none, none, ((mkErrorChunk "X").data.map fun c => [c.toNat]) ++ [[116]],
        none⟩).messages =
      [⟨0, "user", "Hi", false⟩, ⟨2, "assistant", "\x7b", false⟩] := by decide

/-- C4: a transport fault after the partial content "Hello, wo" was
delivered and reflected: the `catch` branch's error update is a no-op (the
placeholder was already replaced by a clone), so the final message keeps
the partial content with `isError = false` instead of the claimed generic
network-error string with `isError = true`. -/
theorem c4_partial_then_abort_keeps_partial :
    (handleSendMessage [] 0 "Hi" "openai"
        ⟨true, "", none, none, [asciiBytes "Hello, wo"], some "network down"⟩).messages =
      [⟨0, "user", "Hi", false⟩, ⟨2, "assistant", "Hello, wo", false⟩] := by decide

/-! ## C5: the parse-attempt guard -/

/-- C5 counterexample: on the first chunk "hello" the guard is true — a
JSON parse is attempted — although the accumulated buffer does not begin
with a left brace after trimming, refuting the claim that a parse is
attempted only when the trimmed buffer begins with a brace. -/
theorem c5_first_chunk_always_parsed :
    (handleSendMessage [] 0 "Hi" "openai"
        ⟨true, "", none, none, [asciiBytes "hello"], none⟩).attempts = [(true, "hello")] ∧
    startsWithLBrace "hello" = false := by decide

/-! ## C7: pre-stream error content -/

/-- C7 counterexample: for a failed response whose body is the JSON object
`\x7b"ok":true\x7d` (valid JSON but no `error` field) with status text
"Bad Request", the code falls back to the status text, while the claimed
preference order (JSON error field, else body as plain text, else status
text) would use the body text — refuting the claimed derivation order. -/
theorem c7_preference_order_differs :
    let r := handleSendMessage [] 0 "Hi" "openai"
      ⟨false, "Bad Request", some (.obj [("ok", .bool true)]), some "\x7b\"ok\":true\x7d", [], none⟩
    r.messages = [⟨0, "user", "Hi", false⟩,
        ⟨2, "assistant", "Error from openai: Bad Request", true⟩] ∧
    specPreferredErrorContent "openai" "Bad Request"
        (some (.obj [("ok", .bool true)])) (some "\x7b\"ok\":true\x7d") =
      "Error from openai: \x7b\"ok\":true\x7d" ∧
    "Error from openai: Bad Request" ≠ "Error from openai: \x7b\"ok\":true\x7d" := by decide

/-! ## C8: adapter concatenation-exactness -/

/-- C8 counterexample: the Gemini route drops whitespace-only chunks, so
for the upstream chunk texts "Hi" and " " the enqueued chunks are just
["Hi"], whose concatenation differs from the full answer "Hi " — refuting
concatenation-exactness as claimed. -/
theorem c8_gemini_drops_whitespace_chunk :
    runGeminiStream [⟨none, "Hi"⟩, ⟨none, " "⟩] none = ["Hi"] ∧
    concatAll (runGeminiStream [⟨none, "Hi"⟩, ⟨none, " "⟩] none) ≠
      concatAll ([GChunk.mk none "Hi", GChunk.mk none " "].map GChunk.text) := by decide

/-- C8 amended: the OpenAI route is concatenation-exact (dropped empty
deltas contribute nothing); the Gemini route enqueues exactly the upstream
texts with empty and whitespace-only chunks filtered out, hence is
concatenation-exact whenever no upstream chunk is empty or
whitespace-only. -/
theorem c8_adapter_concatenation :
    (∀ ocs : List OChunk,
      concatAll (runOpenAIStream ocs false) =
        concatAll (ocs.map (fun c => c.content.getD ""))) ∧
    (∀ gcs : List GChunk, (∀ c ∈ gcs, geminiBlocked c = false) →
      runGeminiStream gcs none = (gcs.map GChunk.text).filter geminiKeep ∧
      ((∀ c ∈ gcs, geminiKeep c.text = true) →
        concatAll (runGeminiStream gcs none) = concatAll (gcs.map GChunk.text))) := by
  constructor
  · intro ocs
    induction ocs with
    | nil => rfl
    | cons c rest ih =>
      rcases hc : c.content with _ | s
      · simpa [runOpenAIStream, concatAll, hc] using ih
      · by_cases hs : s = "" <;>
          simp [runOpenAIStream, concatAll, hc, hs, ih]
  · intro gcs hnb
    have hfilter : runGeminiStream gcs none = (gcs.map GChunk.text).filter geminiKeep := by
      induction gcs with
      | nil => rfl
      | cons c rest ih =>
        have hc : geminiBlocked c = false := hnb c (by simp)
        have ih' := ih (fun d hd => hnb d (by simp [hd]))
        by_cases hk : geminiKeep c.text <;>
          simp [runGeminiStream, hc, hk, ih', List.filter]
    refine ⟨hfilter, fun hkeep => ?_⟩
    rw [hfilter, List.filter_eq_self.mpr]
    intro t ht
    rcases List.mem_map.mp ht with ⟨c, hc, rfl⟩
    exact hkeep c hc

/-- C8 amended, witnessed at a concrete unblocked one-chunk Gemini stream. -/
theorem c8_adapter_concatenation_witness :
    runGeminiStream [GChunk.mk none "Hi"] none =
      ([GChunk.mk none "Hi"].map GChunk.text).filter geminiKeep ∧
    concatAll (runGeminiStream [GChunk.mk none "Hi"] none) =
      concatAll ([GChunk.mk none "Hi"].map GChunk.text) :=
  ⟨(c8_adapter_concatenation.2 [GChunk.mk none "Hi"] (by decide)).1,
    (c8_adapter_concatenation.2 [GChunk.mk none "Hi"] (by decide)).2 (by decide)⟩

/-! ## C10: transformMessagesForGemini -/

/-- C10: for message lists whose roles are all `user` or `assistant`,
`transformMessagesForGemini` succeeds exactly when the list is non-empty
with a final `user` message, returning the mapped history (all but the
last, `assistant` mapped to `model`) and the last message's content; it
throws when the list is empty or ends with an `assistant` message. -/
theorem c10_transform_messages (ms : List ChatMsg)
    (h : ∀ m ∈ ms, m.role = "user" ∨ m.role = "assistant") :
    (ms ≠ [] → (ms.getLastD ⟨"", ""⟩).role = "user" →
      transformMessagesForGemini ms =
        Except.ok (ms.dropLast.map
            (fun m => GContent.mk (if m.role = "assistant" then "model" else "user") m.content),
          (ms.getLastD ⟨"", ""⟩).content)) ∧
    ((ms = [] ∨ (ms ≠ [] ∧ (ms.getLastD ⟨"", ""⟩).role = "assistant")) →
      ∃ e, transformMessagesForGemini ms = Except.error e) := by
  rcases List.eq_nil_or_concat ms with rfl | ⟨l, a, rfl⟩
  · exact ⟨fun hne => absurd rfl hne, fun _ => ⟨_, rfl⟩⟩
  · simp only [List.concat_eq_append] at h ⊢
    have hne : l ++ [a] ≠ [] := by simp
    have hlast : (l ++ [a]).getLastD (⟨"", ""⟩ : ChatMsg) = a := by
      simp [List.getLastD_eq_getLast?]
    have hlen : (l ++ [a]).length ≠ 0 := by simp
    constructor
    · intro _ hrole
      rw [hlast] at hrole
      by_cases hct : a.content = "" <;>
        simp [transformMessagesForGemini, hlen, hlast, hrole, hct]
    · rintro (habs | ⟨_, hrole⟩)
      · exact absurd habs hne
      · rw [hlast] at hrole
        refine ⟨"Last message must be from the user for Gemini API.", ?_⟩
        simp [transformMessagesForGemini, hlen, hlast, hrole]

/-- C10 witnessed at a concrete three-message conversation. -/
theorem c10_transform_messages_witness :
    transformMessagesForGemini [⟨"user", "Hi"⟩, ⟨"assistant", "Yo"⟩, ⟨"user", "Q"⟩] =
      Except.ok ([⟨"user", "Hi"⟩, ⟨"model", "Yo"⟩], "Q") := by
  rw [(c10_transform_messages [⟨"user", "Hi"⟩, ⟨"assistant", "Yo"⟩, ⟨"user", "Q"⟩]
    (by decide)).1 (by decide) (by decide)]
  rfl

/-! ## C5 amended: the full guard characterisation -/

/-- Appending the record of one chunk's guard preserves the guard
characterisation, provided the `firstChunk` flag agrees with the record
being empty. -/
theorem attempts_snoc_guard (l : List (Bool × String)) (first : Bool) (acc : String)
    (hfirst : first = l.isEmpty)
    (hl : ∀ i (hi : i < l.length),
      (l[i]).1 = (decide (i = 0) || startsWithLBrace (l[i]).2)) :
    ∀ i (hi : i < (l ++ [(first || startsWithLBrace acc, acc)]).length),
      ((l ++ [(first || startsWithLBrace acc, acc)])[i]).1 =
        (decide (i = 0) || startsWithLBrace ((l ++ [(first || startsWithLBrace acc, acc)])[i]).2) := by
  intro i hi
  by_cases hil : i < l.length
  · rw [List.getElem_append_left hil]
    exact hl i hil
  · have hie : i = l.length := by
      simp only [List.length_append, List.length_cons, List.length_nil] at hi
      omega
    rw [List.getElem_concat_length l _ i hie]
    cases l with
    | nil => simp at hie; simp [hfirst, hie]
    | cons x xs =>
      have : ¬(i = 0) := by simp [hie]
      simp [hfirst, this]

/-- The read loop records, for each chunk, exactly the guard value
`firstChunk || trimmedBufferStartsWithBrace`. -/
theorem consumeChunks_attempts_guard (model : String) (pid : Nat) :
    ∀ (chunks : List (List Nat)) (ls : LoopState),
      ls.firstChunk = ls.attempts.isEmpty →
      (∀ i (hi : i < ls.attempts.length),
        (ls.attempts[i]).1 = (decide (i = 0) || startsWithLBrace (ls.attempts[i]).2)) →
      ∀ i (hi : i < (consumeChunks model pid chunks ls).1.attempts.length),
        ((consumeChunks model pid chunks ls).1.attempts[i]).1 =
          (decide (i = 0) ||
            startsWithLBrace ((consumeChunks model pid chunks ls).1.attempts[i]).2) := by
  intro chunks
  induction chunks with
  | nil => intro ls h1 h2; exact h2
  | cons chunk rest ih =>
    intro ls h1 h2
    show ∀ _, _
    unfold consumeChunks
    cases hd : detectError (ls.firstChunk || startsWithLBrace (ls.acc ++ (decodePush ls.dec chunk).2))
        (ls.acc ++ (decodePush ls.dec chunk).2) with
    | some e =>
      simp only [hd]
      exact attempts_snoc_guard ls.attempts ls.firstChunk _ h1 h2
    | none =>
      simp only [hd]
      exact ih _ (by simp) (attempts_snoc_guard ls.attempts ls.firstChunk _ h1 h2)

/-- The run's guard record comes entirely from the read loop (the
pre-stream-error branch records nothing). -/
theorem handleSend_attempts (prior : List Msg) (nid : Nat) (uc model : String)
    (resp : Response) :
    (handleSendMessage prior nid uc model resp).attempts =
      if resp.ok = false then ([] : List (Bool × String))
      else (consumeChunks model (nid + 1) resp.chunks
          ⟨⟨prior ++ [⟨nid, "user", uc, false⟩, ⟨nid + 1, "assistant", "", false⟩], nid + 2⟩,
            "", [], true, [], 0⟩).1.attempts := by
  rcases resp with ⟨ok, stx, jo, tx, chunks, fault⟩
  simp only [handleSendMessage]
  split
  · rfl
  · split
    · rfl
    · cases fault with
      | some m => rfl
      | none => simp [apply_ite RunResult.attempts]

/-- C5 amended: in every run, a JSON parse is attempted on a chunk exactly
when it is the first received chunk or the accumulated buffer, trimmed,
begins with a left brace.  In particular a non-first chunk whose trimmed
buffer does not begin with a brace is never parsed. -/
theorem c5_parse_guard (prior : List Msg) (nid : Nat) (uc model : String) (resp : Response)
    (i : Nat) (hi : i < (handleSendMessage prior nid uc model resp).attempts.length) :
    ((handleSendMessage prior nid uc model resp).attempts[i]).1 =
      (decide (i = 0) ||
        startsWithLBrace ((handleSendMessage prior nid uc model resp).attempts[i]).2) := by
  have hat := handleSend_attempts prior nid uc model resp
  by_cases hok : resp.ok = false
  · rw [hat] at hi
    simp [hok] at hi
  · simp only [hok, if_false] at hat
    have hi2 : i < ((consumeChunks model (nid + 1) resp.chunks
        ⟨⟨prior ++ [⟨nid, "user", uc, false⟩, ⟨nid + 1, "assistant", "", false⟩], nid + 2⟩,
          "", [], true, [], 0⟩).1.attempts).length := by
      rw [hat] at hi; exact hi
    have := consumeChunks_attempts_guard model (nid + 1) resp.chunks
      ⟨⟨prior ++ [⟨nid, "user", uc, false⟩, ⟨nid + 1, "assistant", "", false⟩], nid + 2⟩,
        "", [], true, [], 0⟩ rfl (by intro j hj; simp at hj) i hi2
    simp only [hat]
    exact this

/-- C5 amended, witnessed at the one-chunk run on "hello": index 0 has a
parse attempt with a brace-free buffer. -/
theorem c5_parse_guard_witness :
    ((handleSendMessage [] 0 "Hi" "openai"
        ⟨true, "", none, none, [asciiBytes "hello"], none⟩).attempts.get ⟨0, by decide⟩).1 =
      (decide ((0 : Nat) = 0) ||
        startsWithLBrace ((handleSendMessage [] 0 "Hi" "openai"
          ⟨true, "", none, none, [asciiBytes "hello"], none⟩).attempts.get ⟨0, by decide⟩).2) :=
  c5_parse_guard [] 0 "Hi" "openai" ⟨true, "", none, none, [asciiBytes "hello"], none⟩ 0 (by decide)

/-! ## Update lemmas: hitting and missing the placeholder -/

/-- A state update whose target identity occurs nowhere in a message list
leaves that list unchanged. -/
theorem map_update_skip (l : List Msg) (pid n : Nat) (c : String) (b : Bool)
    (h : ∀ m ∈ l, m.ident ≠ pid) :
    l.map (fun m => if m.ident = pid then (⟨n, m.role, c, b⟩ : Msg) else m) = l := by
  induction l with
  | nil => rfl
  | cons x xs ih =>
    simp only [List.map_cons, List.cons.injEq]
    exact ⟨by simp [h x (by simp)], ih (fun m hm => h m (by simp [hm]))⟩

/-- No message of a list matches an identity absent from it. -/
theorem any_update_false (l : List Msg) (pid : Nat) (h : ∀ m ∈ l, m.ident ≠ pid) :
    (l.any fun m => m.ident = pid) = false := by
  rw [List.any_eq_false]
  intro m hm
  simp [h m hm]

/-- An update that misses (the placeholder identity occurs nowhere) is a
complete no-op, identity counter included. -/
theorem updatePlaceholder_miss (st : StreamState) (pid : Nat) (c : String) (b : Bool)
    (h : ∀ m ∈ st.messages, m.ident ≠ pid) :
    updatePlaceholder pid c b st = st := by
  rcases st with ⟨msgs, n⟩
  simp [updatePlaceholder, map_update_skip _ _ _ _ _ h, any_update_false _ _ h]

/-- An update against a message list that still carries the placeholder
identity replaces exactly that slot (giving it a fresh identity) and bumps
the counter; the prior messages and the user message are untouched. -/
theorem updatePlaceholder_hit (prior : List Msg) (nid : Nat) (uc c c2 : String)
    (e b : Bool) (hfresh : ∀ m ∈ prior, m.ident < nid) :
    updatePlaceholder (nid + 1) c2 b
        ⟨prior ++ [⟨nid, "user", uc, false⟩, ⟨nid + 1, "assistant", c, e⟩], nid + 2⟩ =
      ⟨prior ++ [⟨nid, "user", uc, false⟩, ⟨nid + 2, "assistant", c2, b⟩], nid + 3⟩ := by
  have hne : ∀ m ∈ prior, m.ident ≠ nid + 1 := by
    intro m hm
    have := hfresh m hm
    omega
  simp [updatePlaceholder, List.map_append, map_update_skip _ _ _ _ _ hne,
    List.any_append, any_update_false _ _ hne]

/-! ## C7 amended: the pre-stream error path -/

/-- C7 amended: on a non-success response the consumer reads no chunk,
attempts no parse, and replaces exactly the placeholder with an error
message (isError = true) whose content is the code's preference order:
JSON error field if the body parses to a non-null value with a truthy
error field, else status text if the body parses as JSON, else the body
text if readable, else the status text. -/
theorem c7_pre_stream_error (prior : List Msg) (nid : Nat) (uc model : String) (resp : Response)
    (hfresh : ∀ m ∈ prior, m.ident < nid) (hok : resp.ok = false) :
    (handleSendMessage prior nid uc model resp).chunksRead = 0 ∧
    (handleSendMessage prior nid uc model resp).attempts = [] ∧
    (handleSendMessage prior nid uc model resp).messages =
      prior ++ [⟨nid, "user", uc, false⟩,
        ⟨nid + 2, "assistant",
          preStreamErrorContent model resp.statusText resp.jsonOf resp.textOf, true⟩] := by
  rcases resp with ⟨ok, stx, jo, tx, chunks, fault⟩
  cases hok
  refine ⟨rfl, rfl, ?_⟩
  show (updatePlaceholder (nid + 1) (preStreamErrorContent model stx jo tx) true
    ⟨prior ++ [⟨nid, "user", uc, false⟩, ⟨nid + 1, "assistant", "", false⟩], nid + 2⟩).messages = _
  rw [updatePlaceholder_hit prior nid uc "" _ false true hfresh]

/-- C7 amended, witnessed at a concrete failed response. -/
theorem c7_pre_stream_error_witness :
    (handleSendMessage [] 0 "Hi" "gemini"
        ⟨false, "Service Unavailable", none, none, [], none⟩).chunksRead = 0 ∧
    (handleSendMessage [] 0 "Hi" "gemini"
        ⟨false, "Service Unavailable", none, none, [], none⟩).attempts = [] ∧
    (handleSendMessage [] 0 "Hi" "gemini"
        ⟨false, "Service Unavailable", none, none, [], none⟩).messages =
      [⟨0, "user", "Hi", false⟩,
        ⟨2, "assistant", preStreamErrorContent "gemini" "Service Unavailable" none none, true⟩] :=
  c7_pre_stream_error [] 0 "Hi" "gemini" ⟨false, "Service Unavailable", none, none, [], none⟩
    (by simp) rfl

/-! ## JSON stringify/parse coherence -/

theorem parseHexDigit_hexDigitChar : ∀ n, n < 16 → parseHexDigit (hexDigitChar n) = some n := by
  decide

/-- The parser undoes the escaping of a single character. -/
theorem parseStringBody_escChar (c : Char) (rest : List Char) :
    parseStringBody (escChar c ++ rest) = consStr c (parseStringBody rest) := by
  by_cases h1 : c = '"'
  · subst h1; rw [parseStringBody.eq_def]; rfl
  by_cases h2 : c = '\\'
  · subst h2; rw [parseStringBody.eq_def]; rfl
  by_cases h3 : c = '\x08'
  · subst h3; rw [parseStringBody.eq_def]; rfl
  by_cases h4 : c = '\t'
  · subst h4; rw [parseStringBody.eq_def]; rfl
  by_cases h5 : c = '\n'
  · subst h5; rw [parseStringBody.eq_def]; rfl
  by_cases h6 : c = '\x0C'
  · subst h6; rw [parseStringBody.eq_def]; rfl
  by_cases h7 : c = '\r'
  · subst h7; rw [parseStringBody.eq_def]; rfl
  by_cases h8 : c.toNat < 0x20
  · have hdiv : c.toNat / 16 < 16 := by omega
    have hmod : c.toNat % 16 < 16 := Nat.mod_lt _ (by norm_num)
    have hz : parseHexDigit '0' = some 0 := by decide
    simp only [escChar, h1, h2, h3, h4, h5, h6, h7, h8, if_true, if_false,
      ite_false, ite_true, List.cons_append, List.nil_append]
    rw [parseStringBody.eq_def]
    simp +decide [parseHex4, hz, parseHexDigit_hexDigitChar _ hdiv,
      parseHexDigit_hexDigitChar _ hmod]
    rw [show c.toNat / 16 * 16 + c.toNat % 16 = c.toNat by omega]
    simp [show c.toNat < 0xD800 by omega, Char.ofNat_toNat]
  · have h20 : ¬ c.toNat < 32 := h8
    simp only [escChar, h1, h2, h3, h4, h5, h6, h7, h8, if_false, ite_false,
      List.cons_append, List.nil_append]
    rw [parseStringBody.eq_def]
    simp [h1, h2, h20]

/-- The parser undoes the escaping of a whole string (up to the closing
quote). -/
theorem parseStringBody_escape (l r : List Char) :
    parseStringBody (l.flatMap escChar ++ '"' :: r) = some (l, r) := by
  induction l with
  | nil => rw [List.flatMap_nil, List.nil_append, parseStringBody.eq_def]; rfl
  | cons c cs ih =>
    rw [List.flatMap_cons, List.append_assoc, parseStringBody_escChar, ih]
    rfl

/-- Parsing the stringified error object succeeds with four fuel steps. -/
theorem parseJ_mkErrorChunk (f : Nat) (msg : String) :
    parseJ (f + 4) .val (mkErrorChunkChars msg) = some (.obj [("error", .str msg)], []) := by
  have hval := parseStringBody_escape msg.data ['}']
  have hkey := parseStringBody_escape "error".data
    (':' :: '"' :: (msg.data.flatMap escChar ++ ['"', '}']))
  rw [show ("error".data.flatMap escChar) = "error".data by decide] at hkey
  rw [parseJ.eq_def]
  simp +decide only [mkErrorChunkChars, List.dropWhile_cons, if_false, if_true,
    ite_false, ite_true]
  rw [parseJ.eq_def]
  simp +decide only [List.dropWhile_cons, if_false, if_true, ite_false, ite_true]
  rw [parseJ.eq_def]
  simp +decide only [List.dropWhile_cons, if_false, if_true, ite_false, ite_true]
  rw [show ('e' :: 'r' :: 'r' :: 'o' :: 'r' :: '"' :: ':' :: '"' ::
      (msg.data.flatMap escChar ++ ['"', '}'])) =
    "error".data ++ '"' :: ':' :: '"' :: (msg.data.flatMap escChar ++ ['"', '}']) from rfl, hkey]
  simp +decide only [List.dropWhile_cons, if_false, if_true, ite_false, ite_true]
  rw [parseJ.eq_def]
  simp +decide only [List.dropWhile_cons, if_false, if_true, ite_false, ite_true]
  rw [hval]
  rfl

/-- `JSON.parse` inverts the error-chunk `JSON.stringify` for every
message string: the chunk both routes enqueue is the encoding of a JSON
object with a string `error` field. -/
theorem jsonParse_mkErrorChunk (msg : String) :
    jsonParse (mkErrorChunk msg) = some (.obj [("error", .str msg)]) := by
  unfold jsonParse
  rw [show (mkErrorChunk msg).data = mkErrorChunkChars msg from rfl]
  rw [show (mkErrorChunkChars msg).length * 2 + 8 =
      ((mkErrorChunkChars msg).length * 2 + 4) + 4 by omega]
  rw [parseJ_mkErrorChunk]
  simp

/-! ## C9: exactly one in-band error chunk, at the end of the stream -/

/-- C9: whenever a Gemini stream sees a policy block or a mid-iteration
fault, the route's output is some content chunks (each the text of an
upstream chunk) followed by exactly one final in-band error chunk, which is
the UTF-8/JSON encoding of an object with a string `error` field; the
stream ends there (nothing follows it, later upstream chunks are ignored).
The OpenAI route behaves the same on a mid-iteration fault, with its
constant error message.  Both stream bodies are total functions: the fault
is converted, never rethrown. -/
theorem c9_single_in_band_error_chunk :
    (∀ (gcs : List GChunk) (gfault : Option String),
      (gfault ≠ none ∨ gcs.any geminiBlocked = true) →
      ∃ pre msg, runGeminiStream gcs gfault = pre ++ [mkErrorChunk msg] ∧
        (∀ s ∈ pre, ∃ c ∈ gcs, s = c.text) ∧
        jsonParse (mkErrorChunk msg) = some (.obj [("error", .str msg)])) ∧
    (∀ ocs : List OChunk,
      runOpenAIStream ocs true =
        openaiEmitted ocs ++ [mkErrorChunk "Error during streaming from OpenAI."] ∧
      jsonParse (mkErrorChunk "Error during streaming from OpenAI.") =
        some (.obj [("error", .str "Error during streaming from OpenAI.")])) := by
  constructor
  · intro gcs
    induction gcs with
    | nil =>
      intro gfault herr
      rcases gfault with _ | m
      · rcases herr with h | h
        · exact absurd rfl h
        · simp at h
      · exact ⟨[], "Error during streaming from Gemini: " ++ m, rfl, by simp,
          jsonParse_mkErrorChunk _⟩
    | cons c rest ih =>
      intro gfault herr
      by_cases hb : geminiBlocked c = true
      · refine ⟨[], "Request blocked by Gemini: " ++ c.blockReason.getD "", ?_, by simp,
          jsonParse_mkErrorChunk _⟩
        simp [runGeminiStream, hb]
      · have hb' : geminiBlocked c = false := by simpa using hb
        have herr' : gfault ≠ none ∨ rest.any geminiBlocked = true := by
          rcases herr with h | h
          · exact Or.inl h
          · right; simpa [hb'] using h
        rcases ih gfault herr' with ⟨pre, msg, heq, hpre, hrt⟩
        by_cases hk : geminiKeep c.text = true
        · refine ⟨c.text :: pre, msg, ?_, ?_, hrt⟩
          · simp [runGeminiStream, hb', hk, heq]
          · intro s hs
            rcases List.mem_cons.mp hs with rfl | hs
            · exact ⟨c, by simp, rfl⟩
            · rcases hpre s hs with ⟨d, hd, hds⟩
              exact ⟨d, by simp [hd], hds⟩
        · refine ⟨pre, msg, ?_, ?_, hrt⟩
          · simpa [runGeminiStream, hb', hk] using heq
          · intro s hs
            rcases hpre s hs with ⟨d, hd, hds⟩
            exact ⟨d, by simp [hd], hds⟩
  · intro ocs
    refine ⟨?_, jsonParse_mkErrorChunk _⟩
    induction ocs with
    | nil => rfl
    | cons c rest ih =>
      rcases hc : c.content with _ | s
      · simpa [runOpenAIStream, openaiEmitted, hc] using ih
      · by_cases hs : s = "" <;>
          simp [runOpenAIStream, openaiEmitted, hc, hs, ih]

/-- C9 witnessed at an immediately-faulting Gemini stream. -/
theorem c9_single_in_band_error_chunk_witness :
    ∃ pre msg, runGeminiStream [] (some "boom") = pre ++ [mkErrorChunk msg] ∧
      (∀ s ∈ pre, ∃ c ∈ ([] : List GChunk), s = c.text) ∧
      jsonParse (mkErrorChunk msg) = some (.obj [("error", .str msg)]) :=
  c9_single_in_band_error_chunk.1 [] (some "boom") (Or.inl (by simp))

/-! ## C6: non-JSON-prefix safety

Support lemmas: compositionality of the streaming decoder, stability of the
brace test under taking prefixes, soundness of the JSON parser (an object
parse requires a leading brace after JSON whitespace), and preservation of
the conversation shape by content updates. -/

theorem decodePush_append (p a b : List Nat) :
    decodePush p (a ++ b) =
      ((decodePush (decodePush p a).1 b).1,
       (decodePush p a).2 ++ (decodePush (decodePush p a).1 b).2) := by
  induction a generalizing p with
  | nil => simp [decodePush]
  | cons x xs ih =>
    simp only [List.cons_append, decodePush]
    rw [show List.append xs b = xs ++ b from rfl, ih]
    rw [String.append_assoc]

theorem startsWithLBraceL_prefix (xs t : List Char)
    (h : startsWithLBraceL (xs ++ t) = false) : startsWithLBraceL xs = false := by
  unfold startsWithLBraceL at h ⊢
  rw [List.dropWhile_append] at h
  cases hd : xs.dropWhile jsIsWs with
  | nil => rfl
  | cons c r =>
    rw [hd] at h
    simpa using h

theorem jsIsWs_of_isJsonWs (c : Char) (h : isJsonWs c = true) : jsIsWs c = true := by
  simp only [isJsonWs, Bool.or_eq_true, decide_eq_true_eq] at h
  rcases h with ((h | h) | h) | h <;> subst h <;> decide

theorem dropWhile_append_of_all {p : Char → Bool} (w l : List Char)
    (h : ∀ c ∈ w, p c = true) :
    (w ++ l).dropWhile p = l.dropWhile p := by
  induction w with
  | nil => rfl
  | cons x xs ih =>
    simp [List.dropWhile_cons, h x (by simp), ih (fun c hc => h c (by simp [hc]))]

theorem getField_obj (v : JsonVal) (k : String) (e : JsonVal) (h : getField v k = some e) :
    ∃ fs, v = JsonVal.obj fs := by
  cases v <;> simp [getField] at h
  exact ⟨_, rfl⟩

theorem parseJ_arr_shape :
    ∀ f : Nat, (∀ (acc : List JsonVal) (cs : List Char) (v : JsonVal) (r : List Char),
        parseJ f (.elems acc) cs = some (v, r) → ∃ xs, v = JsonVal.arr xs) ∧
      (∀ (cs : List Char) (v : JsonVal) (r : List Char),
        parseJ f .arrRest cs = some (v, r) → ∃ xs, v = JsonVal.arr xs) := by
  intro f
  induction f with
  | zero =>
    refine ⟨fun acc cs v r h => ?_, fun cs v r h => ?_⟩ <;>
      (rw [parseJ.eq_def] at h; simp at h)
  | succ f ih =>
    refine ⟨fun acc cs v r h => ?_, fun cs v r h => ?_⟩
    · rw [parseJ.eq_def] at h
      simp only [] at h
      split at h
      · simp at h
      · split at h
        · exact ih.1 _ _ _ _ h
        · simp only [Option.some.injEq, Prod.mk.injEq] at h
          exact ⟨_, h.1.symm⟩
        · simp at h
    · rw [parseJ.eq_def] at h
      simp only [] at h
      split at h
      · simp only [Option.some.injEq, Prod.mk.injEq] at h
        exact ⟨_, h.1.symm⟩
      · exact ih.1 _ _ _ _ h

theorem parseJ_val_obj (f : Nat) (cs : List Char) (fs : List (String × JsonVal))
    (r : List Char) (h : parseJ f .val cs = some (.obj fs, r)) :
    startsWithLBraceL cs = true := by
  cases f with
  | zero => rw [parseJ.eq_def] at h; simp at h
  | succ f =>
    rw [parseJ.eq_def] at h
    simp only [] at h
    cases hdw : cs.dropWhile isJsonWs with
    | nil => rw [hdw] at h; simp at h
    | cons c rest =>
      rw [hdw] at h
      simp only [] at h
      have hws : ∀ d ∈ cs.takeWhile isJsonWs, jsIsWs d = true :=
        fun d hd => jsIsWs_of_isJsonWs d (List.mem_takeWhile_imp hd)
      have hcs : cs.takeWhile isJsonWs ++ c :: rest = cs := by
        rw [← hdw]; exact List.takeWhile_append_dropWhile _ _
      by_cases hc : c = '{'
      · subst hc
        unfold startsWithLBraceL
        rw [← hcs, dropWhile_append_of_all _ _ hws]
        simp +decide [List.dropWhile_cons]
      · exfalso
        split_ifs at h with h1 h2 h3 h4 h5
        · cases hp : parseStringBody rest with
          | none => rw [hp] at h; simp at h
          | some p => rw [hp] at h; simp at h
        · rcases (parseJ_arr_shape f).2 _ _ _ h with ⟨xs, hx⟩
          simp at hx
        · split at h <;> simp at h
        · split at h <;> simp at h
        · split at h <;> simp at h
        · cases hp : parseNumber (c :: rest) with
          | none => rw [hp] at h; simp at h
          | some p => rw [hp] at h; simp at h

theorem jsonParse_obj_startsWith (s : String) (fs : List (String × JsonVal))
    (h : jsonParse s = some (.obj fs)) : startsWithLBrace s = true := by
  unfold jsonParse at h
  cases hp : parseJ (s.data.length * 2 + 8) .val s.data with
  | none => rw [hp] at h; simp at h
  | some p =>
    rcases p with ⟨v, rest⟩
    rw [hp] at h
    simp only [] at h
    split at h
    · have hv : v = JsonVal.obj fs := by simpa using h
      subst hv
      exact parseJ_val_obj _ _ _ _ hp
    · simp at h

theorem detectError_none (att : Bool) (acc : String)
    (h : startsWithLBrace acc = false) : detectError att acc = none := by
  unfold detectError
  cases att with
  | false => rfl
  | true =>
    simp only [if_true]
    cases hj : jsonParse acc with
    | none => rfl
    | some v =>
      by_cases ht : jsTruthy v = true
      · simp only [ht, if_true]
        cases hg : getField v "error" with
        | none => rfl
        | some e =>
          rcases getField_obj v "error" e hg with ⟨fs, rfl⟩
          have := jsonParse_obj_startsWith acc fs hj
          rw [this] at h
          cases h
      · simp [ht]

theorem updatePlaceholder_plainShape (prior : List Msg) (nid : Nat) (uc : String)
    (st : StreamState) (c2 : String)
    (hfresh : ∀ m ∈ prior, m.ident < nid)
    (hs : plainShape prior nid uc st) :
    plainShape prior nid uc (updatePlaceholder (nid + 1) c2 false st) := by
  rcases st with ⟨msgs, n⟩
  rcases hs with ⟨pid, c, hmsg, hdisj⟩
  simp only [] at hmsg
  rcases hdisj with ⟨hpid, hn⟩ | ⟨hpid, hn⟩
  · subst hpid
    simp only [] at hn
    subst hn
    subst hmsg
    rw [updatePlaceholder_hit prior nid uc c c2 false false hfresh]
    exact ⟨nid + 2, c2, rfl, Or.inr ⟨rfl, rfl⟩⟩
  · subst hpid
    simp only [] at hn
    subst hn
    subst hmsg
    rw [updatePlaceholder_miss _ _ _ _ ?hne]
    case hne =>
      intro m hm
      rcases List.mem_append.mp hm with hm | hm
      · have := hfresh m hm; simp; omega
      · rcases List.mem_cons.mp hm with rfl | hm
        · simp
        · rcases List.mem_cons.mp hm with rfl | hm
          · simp
          · simp at hm
    exact ⟨nid + 2, c, rfl, Or.inr ⟨rfl, rfl⟩⟩

theorem consumeChunks_pure
    (prior : List Msg) (nid : Nat) (uc model : String)
    (hfresh : ∀ m ∈ prior, m.ident < nid)
    (T : List Char) (hT : startsWithLBraceL T = false) :
    ∀ (chunks : List (List Nat)) (ls : LoopState),
      (∃ t, (ls.acc ++ (decodePush ls.dec chunks.flatten).2).data ++ t = T) →
      plainShape prior nid uc ls.st →
      (consumeChunks model (nid + 1) chunks ls).2 = false ∧
      plainShape prior nid uc (consumeChunks model (nid + 1) chunks ls).1.st := by
  intro chunks
  induction chunks with
  | nil =>
    intro ls _ hshape
    exact ⟨rfl, hshape⟩
  | cons chunk rest ih =>
    intro ls hpre hshape
    rcases hpre with ⟨t, ht⟩
    rw [List.flatten_cons, decodePush_append] at ht
    have ht' : ((ls.acc ++ (decodePush ls.dec chunk).2).data ++
        ((decodePush (decodePush ls.dec chunk).1 rest.flatten).2.data ++ t)) = T := by
      rw [← ht, ← String.append_assoc, String.data_append, String.data_append,
        String.data_append, List.append_assoc]
      simp [List.append_assoc]
    have hbr : startsWithLBraceL (ls.acc ++ (decodePush ls.dec chunk).2).data = false := by
      apply startsWithLBraceL_prefix _ _ (t := (decodePush (decodePush ls.dec chunk).1 rest.flatten).2.data ++ t)
      rw [ht']
      exact hT
    have hdet := detectError_none
      (ls.firstChunk || startsWithLBrace (ls.acc ++ (decodePush ls.dec chunk).2))
      (ls.acc ++ (decodePush ls.dec chunk).2) hbr
    unfold consumeChunks
    simp only []
    rw [hdet]
    apply ih
    · refine ⟨t, ?_⟩
      simp only []
      rw [String.data_append, List.append_assoc]
      exact ht'
    · simp only []
      exact updatePlaceholder_plainShape prior nid uc ls.st _ hfresh hshape

/-- C6: for every fault-free successful stream whose decoded text does not
start with a left brace after trimming surrounding whitespace, the consumer
never classifies the assistant message as an error: the final conversation
is the prior messages, the user message, and a non-error assistant
message. -/
theorem c6_non_json_not_error
    (prior : List Msg) (nid : Nat) (uc model : String) (resp : Response)
    (hfresh : ∀ m ∈ prior, m.ident < nid)
    (hok : resp.ok = true) (hfault : resp.fault = none)
    (hbrace : startsWithLBrace (utf8Decode resp.chunks.flatten) = false) :
    ∃ pid c, (handleSendMessage prior nid uc model resp).messages =
      prior ++ [⟨nid, "user", uc, false⟩, ⟨pid, "assistant", c, false⟩] := by
  rcases resp with ⟨ok, stx, jo, tx, chunks, fault⟩
  simp only [] at hok hfault hbrace
  subst hok
  subst hfault
  have hT : startsWithLBraceL (utf8Decode chunks.flatten).data = false := hbrace
  have hpre0 : ((("" : String) ++ (decodePush ([] : List Nat) chunks.flatten).2).data ++
      (decodeFlush (decodePush ([] : List Nat) chunks.flatten).1).data) =
      (utf8Decode chunks.flatten).data := rfl
  have hloop := consumeChunks_pure prior nid uc model hfresh
    (utf8Decode chunks.flatten).data hT chunks
    ⟨⟨prior ++ [⟨nid, "user", uc, false⟩, ⟨nid + 1, "assistant", "", false⟩], nid + 2⟩,
      "", [], true, [], 0⟩
    ⟨(decodeFlush (decodePush ([] : List Nat) chunks.flatten).1).data, hpre0⟩
    ⟨nid + 1, "", rfl, Or.inl ⟨rfl, rfl⟩⟩
  simp only [handleSendMessage]
  simp only [Bool.true_eq_false, if_false, ite_false]
  rw [hloop.1]
  simp only [Bool.false_eq_true, if_false, ite_false]
  by_cases hfl : decodeFlush (consumeChunks model (nid + 1) chunks
      ⟨⟨prior ++ [⟨nid, "user", uc, false⟩, ⟨nid + 1, "assistant", "", false⟩], nid + 2⟩,
        "", [], true, [], 0⟩).1.dec = ""
  · rw [if_pos hfl]
    rcases hloop.2 with ⟨pid, c, hmsg, _⟩
    exact ⟨pid, c, hmsg⟩
  · rw [if_neg hfl]
    rcases updatePlaceholder_plainShape prior nid uc _
      ((consumeChunks model (nid + 1) chunks
        ⟨⟨prior ++ [⟨nid, "user", uc, false⟩, ⟨nid + 1, "assistant", "", false⟩], nid + 2⟩,
          "", [], true, [], 0⟩).1.acc ++
        decodeFlush (consumeChunks model (nid + 1) chunks
        ⟨⟨prior ++ [⟨nid, "user", uc, false⟩, ⟨nid + 1, "assistant", "", false⟩], nid + 2⟩,
          "", [], true, [], 0⟩).1.dec) hfresh hloop.2 with ⟨pid, c, hmsg, _⟩
    exact ⟨pid, c, hmsg⟩

/-- C6 witnessed at a one-chunk stream whose text contains a brace only at
a later position. -/
theorem c6_non_json_not_error_witness :
    ∃ pid c, (handleSendMessage [] 0 "Hi" "openai"
        ⟨true, "", none, none, [asciiBytes "see \x7bthis\x7d later"], none⟩).messages =
      [] ++ [⟨0, "user", "Hi", false⟩, ⟨pid, "assistant", c, false⟩] :=
  c6_non_json_not_error [] 0 "Hi" "openai"
    ⟨true, "", none, none, [asciiBytes "see \x7bthis\x7d later"], none⟩
    (by simp) rfl rfl (by decide)

end Aihoro
